import Mathlib

set_option maxHeartbeats 1000000
set_option linter.unusedVariables false

/-!
Shallow embedding of the kiwix-js storage-abstraction core:
`www/js/lib/osabstraction.js` (StorageFirefoxOS and StoragePhoneGap) and the
multi-volume scan coordinator / archive source resolver of the abstract
backend module.  Strings are modelled as Lean `String`, with the
character-level helpers implemented over `String.data` so that every
definition evaluates inside the kernel.
-/

/-- Modelled from the spec: `util.endsWith` (util.js is not under src/); the
spec reads it as a plain case-sensitive suffix test ("a file named with
suffix `titles.idx`"). -/
def endsWith (s suf : String) : Bool :=
  suf.data.isSuffixOf s.data

/-- Character-wise lowercasing, used to embed the case-insensitive `i` flag
of the ZIM file-name regex. -/
def lowerStr (s : String) : String :=
  String.mk (s.data.map Char.toLower)

/-- Embeds the test of `regexpZIMFileName = /\.zim(aa)?$/i`
(osabstraction.js line 76): a name matches iff, case-insensitively, it ends
in `.zim` or in `.zimaa`. -/
def zimNameMatches (name : String) : Bool :=
  endsWith (lowerStr name) ".zim" || endsWith (lowerStr name) ".zimaa"

/-- Index of the last slash of a character list, as
`name.lastIndexOf('/')` (with `none` for the JS result -1). -/
def lastSlashIdx : List Char → Option Nat
  | [] => none
  | c :: cs =>
    match lastSlashIdx cs with
    | some i => some (i + 1)
    | none => if c = '/' then some 0 else none

/-- The directory pushed for a `titles.idx` match in the FirefoxOS cursor
scan: `"/"` when the name has no slash, else
`name.substring(0, name.lastIndexOf('/') + 1)` (osabstraction.js 78-89). -/
def markerDirectory (name : String) : String :=
  match lastSlashIdx name.data with
  | none => "/"
  | some i => String.mk (name.data.take (i + 1))

/-- Classification of one cursor result inside
`StorageFirefoxOS.prototype.scanForArchives` (osabstraction.js 78-92):
`some entry` when the file name causes a push onto `directories`,
`none` when the file is ignored. -/
def cursorClassify (name : String) : Option String :=
  if endsWith name "titles.idx" then some (markerDirectory name)
  else if zimNameMatches name then some name
  else none

/-- The cursor-driven loop of `StorageFirefoxOS.prototype.scanForArchives`:
the device-storage cursor yields the file names in order and then either a
null result (`onsuccess` with no result: resolve with the accumulator) or an
error (`onerror`: reject with the raw cursor error, untranslated). -/
def cursorLoop : List String → Option String → List String → Except String (List String)
  | [], none, acc => Except.ok acc
  | [], some e, _ => Except.error e
  | f :: fs, cursorErr, acc => cursorLoop fs cursorErr (acc ++ (cursorClassify f).toList)

/-- `StorageFirefoxOS.prototype.scanForArchives`, as a function of the
sequence of file names the cursor yields and the optional terminal cursor
error. -/
def cursorScan (files : List String) (cursorErr : Option String) : Except String (List String) :=
  cursorLoop files cursorErr []

/-- The rejection value of `StorageFirefoxOS.prototype.get`
(osabstraction.js line 52): the native error name is passed through
unchanged (`deferred.reject(this.error.name)`), with no translation. -/
def firefoxGetRejectValue (errorName : String) : String :=
  errorName

/-- `StoragePhoneGap.prototype._errorCodeToString` (osabstraction.js
203-218), over the standard HTML5 FileError codes referenced there:
NOT_FOUND_ERR = 1, SECURITY_ERR = 2, INVALID_STATE_ERR = 7,
INVALID_MODIFICATION_ERR = 9, QUOTA_EXCEEDED_ERR = 10. -/
def errorCodeToString (code : Nat) : String :=
  if code = 10 then "QUOTA_EXCEEDED_ERR"
  else if code = 1 then "NOT_FOUND_ERR"
  else if code = 2 then "SECURITY_ERR"
  else if code = 9 then "INVALID_MODIFICATION_ERR"
  else if code = 7 then "INVALID_STATE_ERR"
  else "Unknown Error"

/-- The error-taxonomy strings a StoragePhoneGap rejection may carry. -/
def taxonomyStrings : List String :=
  ["NOT_FOUND_ERR", "SECURITY_ERR", "QUOTA_EXCEEDED_ERR",
   "INVALID_MODIFICATION_ERR", "INVALID_STATE_ERR", "Unknown Error"]

/-- A PhoneGap file-system entry: a plain file, or a directory carrying its
`fullPath` together with the outcome of reading it (`readErr = some code`
when `createReader().readEntries` fails with that FileError code, in which
case `children` is never delivered). -/
inductive FSEntry : Type where
  | file (name : String)
  | dir (fullPath : String) (readErr : Option Nat) (children : List FSEntry)

/-- The trailing-slash normalization applied to `dir.fullPath` for a
`titles.idx` match in the tree scan (osabstraction.js 172-175). -/
def normalizeDirPath (p : String) : String :=
  if p.length = 0 || p.data.getLast? ≠ some '/' then p ++ "/" else p

/-- Classification of one non-directory entry inside `dirReaderSuccess`
(osabstraction.js 171-179): note the archive branch is the case-sensitive
suffix test `util.endsWith(entry.name, ".zim")`. -/
def treeClassify (dirPath name : String) : Option String :=
  if endsWith name "titles.idx" then some (normalizeDirPath dirPath)
  else if endsWith name ".zim" then some (dirPath ++ "/" ++ name)
  else none

/-- A pending stack element of the tree scan: the directory's fullPath, its
listing outcome, and its children. -/
abbrev Frame := String × Option Nat × List FSEntry

/-- One execution of the entry loop of `dirReaderSuccess` for a popped
directory: returns the new stack frames (head = top) pushed for the child
directories, and the entries appended to `directories`, in entry order.
The stack is represented with its head as the top, so the directory pushed
last (the last directory child) is the list head. -/
def processEntries (dirPath : String) : List FSEntry → List Frame × List String
  | [] => ([], [])
  | FSEntry.dir p err cs :: es =>
    let pr := processEntries dirPath es
    (pr.1 ++ [(p, err, cs)], pr.2)
  | FSEntry.file n :: es =>
    let pr := processEntries dirPath es
    (pr.1, (treeClassify dirPath n).toList ++ pr.2)

/-- Size of a list of entries, counting every node; termination measure for
the stack loop. -/
def entriesSize : List FSEntry → Nat
  | [] => 0
  | FSEntry.file _ :: es => 1 + entriesSize es
  | FSEntry.dir _ _ cs :: es => 1 + entriesSize cs + entriesSize es

/-- Termination measure of the tree-scan stack. -/
def stackMeasure : List Frame → Nat
  | [] => 0
  | (_, _, cs) :: rest => 1 + entriesSize cs + stackMeasure rest

/-- The `iteration` / `dirReaderSuccess` loop of
`StoragePhoneGap.prototype.scanForArchives` (osabstraction.js 164-194):
while the stack is non-empty, read the top directory; on a read error reject
with the translated code (`dirReaderFail`), discarding the accumulator;
otherwise pop it, push its child directories, append its matching files to
the accumulator and continue; on an empty stack resolve. -/
def treeLoop : List Frame → List String → Except String (List String)
  | [], acc => Except.ok acc
  | (_, some c, _) :: _, _ => Except.error (errorCodeToString c)
  | (p, none, es) :: rest, acc =>
    treeLoop ((processEntries p es).1 ++ rest) (acc ++ (processEntries p es).2)
termination_by stack _ => stackMeasure stack
decreasing_by
  have happ : ∀ a b : List Frame, stackMeasure (a ++ b) = stackMeasure a + stackMeasure b := by
    intro a b
    induction a with
    | nil => simp [stackMeasure]
    | cons f rest ih =>
      obtain ⟨p1, err1, cs1⟩ := f
      simp [stackMeasure, ih]
      omega
  have hm : ∀ (d : String) (es : List FSEntry),
      stackMeasure (processEntries d es).1 ≤ entriesSize es := by
    intro d es
    induction es with
    | nil => simp [processEntries, stackMeasure]
    | cons e es ih =>
      cases e with
      | file n =>
        simp [processEntries, entriesSize]
        omega
      | dir p1 err1 cs1 =>
        simp [processEntries, entriesSize, happ, stackMeasure]
        omega
  simp only [happ, stackMeasure]
  have := hm p es
  omega

/-- `StoragePhoneGap.prototype.scanForArchives`, started on the storage root
(fullPath `rootPath`, listing outcome `rootErr`, children
`rootChildren`). -/
def treeScan (rootPath : String) (rootErr : Option Nat) (rootChildren : List FSEntry) :
    Except String (List String) :=
  treeLoop [(rootPath, rootErr, rootChildren)] []

/-- Canonical per-file classification of a whole entry list: exactly the
outputs of `treeClassify`, one `toList` block per reachable file, in entry
order, with a subdirectory's files classified against that subdirectory's
own fullPath. -/
def listMatches (dirPath : String) : List FSEntry → List String
  | [] => []
  | FSEntry.file n :: es => (treeClassify dirPath n).toList ++ listMatches dirPath es
  | FSEntry.dir p _ cs :: es => listMatches p cs ++ listMatches dirPath es

/-- True iff no reachable directory listing of the entry list fails. -/
def entriesErrFree : List FSEntry → Bool
  | [] => true
  | FSEntry.file _ :: es => entriesErrFree es
  | FSEntry.dir _ err cs :: es => err.isNone && entriesErrFree cs && entriesErrFree es

/-- All FileError codes of failing directory listings in the entry list. -/
def entriesErrCodes : List FSEntry → List Nat
  | [] => []
  | FSEntry.file _ :: es => entriesErrCodes es
  | FSEntry.dir _ err cs :: es => err.toList ++ entriesErrCodes cs ++ entriesErrCodes es

/-- Canonical outputs of a whole stack of pending frames. -/
def stackMatches : List Frame → List String
  | [] => []
  | (p, _, cs) :: rest => listMatches p cs ++ stackMatches rest

/-- True iff neither the frame's own listing nor any nested listing fails. -/
def frameErrFree : Frame → Bool
  | (_, err, cs) => err.isNone && entriesErrFree cs

/-- True iff no listing reachable from the stack fails. -/
def stackErrFree : List Frame → Bool
  | [] => true
  | f :: rest => frameErrFree f && stackErrFree rest

/-- All FileError codes of failing listings reachable from the stack. -/
def stackErrCodes : List Frame → List Nat
  | [] => []
  | (_, err, cs) :: rest => err.toList ++ entriesErrCodes cs ++ stackErrCodes rest

/-- The directories contributed by one settled volume scan (empty for a
rejected one; only used when every scan resolved). -/
def volumeDirs : Except String (List String) → List String
  | Except.ok ds => ds
  | Except.error _ => []

/-- Whether one volume's scan resolved. -/
def volumeScanOk : Except String (List String) → Bool
  | Except.ok _ => true
  | Except.error _ => false

/-- The coordinator's `directories` array at fan-in time
(abstractBackend.js 47-54): each volume's contribution is
`jQuery.merge`-appended when that volume's scan promise settles, so the
groups are concatenated in `arrival` order — the order in which the
volumes' promises resolve, determined by backend timing, not by the code. -/
def mergedDirectories (results : List (Except String (List String)))
    (arrival : List Nat) : List String :=
  (arrival.map (fun i => volumeDirs (results.getD i (Except.ok [])))).flatten

/-- The argument handed to `callbackFunction` by the coordinator
(abstractBackend.js 55-64): the merged directories when every volume's scan
resolved, and `none` (the JS `null` of the failure branch) as soon as any
volume's scan rejected. -/
def coordinatorCallbackArg (results : List (Except String (List String)))
    (arrival : List Nat) : Option (List String) :=
  if results.all volumeScanOk then some (mergedDirectories results arrival) else none

/-- The archive handles the resolver can construct (abstractBackend.js
26-39); the archive objects themselves belong to the excluded archive
subsystem, so only the construction path and its arguments are modelled. -/
inductive ArchiveHandle : Type where
  | zim (storageName path : String)
  | localFromStorage (storageName path : String)
  | localFromFiles (files : List String)

/-- `loadArchiveFromDeviceStorage` (abstractBackend.js 26-34): suffix
dispatch on `util.endsWith(path, ".zim")`. -/
def loadArchiveFromDeviceStorage (storageName path : String) : ArchiveHandle :=
  if endsWith path ".zim" then ArchiveHandle.zim storageName path
  else ArchiveHandle.localFromStorage storageName path

/-- `loadArchiveFromFiles` (abstractBackend.js 35-39): always the
split/legacy LocalArchive construction path. -/
def loadArchiveFromFiles (files : List String) : ArchiveHandle :=
  ArchiveHandle.localFromFiles files

/-- Whether a handle is the self-contained (ZIMArchive) representation. -/
def isSelfContainedZim : ArchiveHandle → Bool
  | ArchiveHandle.zim _ _ => true
  | ArchiveHandle.localFromStorage _ _ => false
  | ArchiveHandle.localFromFiles _ => false

/-- Whether a handle is the split/legacy (LocalArchive) representation. -/
def isSplitLegacy : ArchiveHandle → Bool
  | ArchiveHandle.zim _ _ => false
  | ArchiveHandle.localFromStorage _ _ => true
  | ArchiveHandle.localFromFiles _ => true

/-- The FirefoxOS DeviceStorage backend, reduced to what the wrapper relies
on: its name and the enumeration request surface; `enumerateWith arg` is the
underlying request issued for an optional path argument (`none` when
`enumerate()` is called with no argument). -/
structure DeviceStorage : Type where
  storageName : String
  enumerateWith : Option String → List String

/-- The StorageFirefoxOS wrapper state (osabstraction.js 38-41). -/
structure StorageFirefoxOS : Type where
  _storage : DeviceStorage
  storageName : String

/-- The StorageFirefoxOS constructor (osabstraction.js 38-41). -/
def StorageFirefoxOS.ofDeviceStorage (st : DeviceStorage) : StorageFirefoxOS :=
  { _storage := st, storageName := st.storageName }

/-- `StorageFirefoxOS.prototype.enumerate` (osabstraction.js 104-106): the
body is `return this._storage.enumerate()` — the `path` parameter is never
used and the underlying request carries no path argument. -/
def StorageFirefoxOS.enumerate (s : StorageFirefoxOS) (path : String) : List String :=
  s._storage.enumerateWith none

/-- First `n` characters of a string, as `path.substr(0, n)`. -/
def strTake (s : String) (n : Nat) : String :=
  String.mk (s.data.take n)

/-- All but the first `n` characters of a string, as `path.substr(n)`. -/
def strDrop (s : String) (n : Nat) : String :=
  String.mk (s.data.drop n)

/-- The path `StoragePhoneGap.prototype.get` hands to
`this._storage.root.getFile` (osabstraction.js 146-150): one leading
`file://` prefix is stripped, any other path is passed through unchanged. -/
def getLookupPath (path : String) : String :=
  if strTake path 7 = "file://" then strDrop path 7 else path

instance {α β : Type} [DecidableEq α] [DecidableEq β] : DecidableEq (Except α β) :=
  fun a b =>
    match a, b with
    | Except.ok x, Except.ok y =>
      if h : x = y then isTrue (by rw [h]) else isFalse (by intro hh; cases hh; exact h rfl)
    | Except.error x, Except.error y =>
      if h : x = y then isTrue (by rw [h]) else isFalse (by intro hh; cases hh; exact h rfl)
    | Except.ok _, Except.error _ => isFalse (by intro h; cases h)
    | Except.error _, Except.ok _ => isFalse (by intro h; cases h)

/-! ## Helper lemmas -/

theorem stackMeasure_append (a b : List Frame) :
    stackMeasure (a ++ b) = stackMeasure a + stackMeasure b := by
  induction a with
  | nil => simp [stackMeasure]
  | cons f rest ih =>
    obtain ⟨p, err, cs⟩ := f
    simp [stackMeasure, ih]
    omega

theorem processEntries_measure (dirPath : String) (es : List FSEntry) :
    stackMeasure (processEntries dirPath es).1 ≤ entriesSize es := by
  induction es with
  | nil => simp [processEntries, stackMeasure]
  | cons e es ih =>
    cases e with
    | file n =>
      simp [processEntries, entriesSize]
      omega
    | dir p err cs =>
      simp [processEntries, entriesSize, stackMeasure_append, stackMeasure]
      omega

theorem cursorLoop_none (fs : List String) (acc : List String) :
    cursorLoop fs none acc = Except.ok (acc ++ fs.filterMap cursorClassify) := by
  induction fs generalizing acc with
  | nil => simp [cursorLoop]
  | cons f fs ih =>
    rw [cursorLoop, ih]
    cases h : cursorClassify f <;> simp [List.filterMap_cons, h]

theorem cursorLoop_some (fs : List String) (e : String) (acc : List String) :
    cursorLoop fs (some e) acc = Except.error e := by
  induction fs generalizing acc with
  | nil => rfl
  | cons f fs ih => rw [cursorLoop, ih]

theorem stackMatches_append (a b : List Frame) :
    stackMatches (a ++ b) = stackMatches a ++ stackMatches b := by
  induction a with
  | nil => simp [stackMatches]
  | cons f rest ih =>
    obtain ⟨p, err, cs⟩ := f
    simp [stackMatches, ih]

theorem stackErrFree_append (a b : List Frame) :
    stackErrFree (a ++ b) = (stackErrFree a && stackErrFree b) := by
  induction a with
  | nil => simp [stackErrFree]
  | cons f rest ih =>
    simp [stackErrFree, ih, Bool.and_assoc]

theorem stackErrCodes_append (a b : List Frame) :
    stackErrCodes (a ++ b) = stackErrCodes a ++ stackErrCodes b := by
  induction a with
  | nil => simp [stackErrCodes]
  | cons f rest ih =>
    obtain ⟨p, err, cs⟩ := f
    simp [stackErrCodes, ih]

theorem processEntries_fst_errFree (dirPath : String) (es : List FSEntry) :
    stackErrFree (processEntries dirPath es).1 = entriesErrFree es := by
  induction es with
  | nil => simp [processEntries, stackErrFree, entriesErrFree]
  | cons e es ih =>
    cases e with
    | file n => simpa [processEntries, entriesErrFree] using ih
    | dir p err cs =>
      simp [processEntries, entriesErrFree, stackErrFree_append, stackErrFree, frameErrFree, ih]
      cases err.isNone && entriesErrFree cs <;> cases entriesErrFree es <;> simp

theorem processEntries_perm (dirPath : String) (es : List FSEntry) :
    ((processEntries dirPath es).2 ++ stackMatches (processEntries dirPath es).1).Perm
      (listMatches dirPath es) := by
  induction es with
  | nil => simp [processEntries, stackMatches, listMatches]
  | cons e es ih =>
    cases e with
    | file n =>
      simp only [processEntries, listMatches]
      rw [List.append_assoc]
      exact List.Perm.append_left _ ih
    | dir p err cs =>
      simp only [processEntries, listMatches, stackMatches_append, stackMatches]
      rw [List.append_nil, ← List.append_assoc]
      exact (ih.append_right _).trans List.perm_append_comm

theorem processEntries_codes_perm (dirPath : String) (es : List FSEntry) :
    (stackErrCodes (processEntries dirPath es).1).Perm (entriesErrCodes es) := by
  induction es with
  | nil => simp [processEntries, stackErrCodes, entriesErrCodes]
  | cons e es ih =>
    cases e with
    | file n => simpa [processEntries, entriesErrCodes] using ih
    | dir p err cs =>
      refine List.perm_iff_count.mpr (fun a => ?_)
      have hcount := ih.count_eq a
      simp only [processEntries, entriesErrCodes, stackErrCodes_append, stackErrCodes,
        List.count_append, List.count_nil] at hcount ⊢
      omega

theorem treeLoop_ok_of_errFree (n : Nat) :
    ∀ (stack : List Frame) (acc : List String), stackMeasure stack ≤ n →
      stackErrFree stack = true →
      ∃ l, treeLoop stack acc = Except.ok l ∧ l.Perm (acc ++ stackMatches stack) := by
  induction n with
  | zero =>
    intro stack acc hm he
    rcases stack with _ | ⟨⟨p, err, es⟩, rest⟩
    · exact ⟨acc, by simp [treeLoop], by simp [stackMatches]⟩
    · exfalso
      simp [stackMeasure] at hm
  | succ n ih =>
    intro stack acc hm he
    rcases stack with _ | ⟨⟨p, err, es⟩, rest⟩
    · exact ⟨acc, by simp [treeLoop], by simp [stackMatches]⟩
    · rcases err with _ | c
      · have hef : entriesErrFree es = true ∧ stackErrFree rest = true := by
          simpa [stackErrFree, frameErrFree] using he
        have hm2 : stackMeasure ((processEntries p es).1 ++ rest) ≤ n := by
          have h1 := processEntries_measure p es
          rw [stackMeasure_append]
          simp [stackMeasure] at hm
          omega
        have he2 : stackErrFree ((processEntries p es).1 ++ rest) = true := by
          rw [stackErrFree_append, processEntries_fst_errFree, hef.1, hef.2]
          rfl
        obtain ⟨l, heq, hperm⟩ :=
          ih ((processEntries p es).1 ++ rest) (acc ++ (processEntries p es).2) hm2 he2
        refine ⟨l, ?_, ?_⟩
        · have hstep : treeLoop ((p, none, es) :: rest) acc
              = treeLoop ((processEntries p es).1 ++ rest) (acc ++ (processEntries p es).2) := by
            simp only [treeLoop]
          rw [hstep]
          exact heq
        · refine hperm.trans ?_
          rw [stackMatches_append, stackMatches, List.append_assoc,
            ← List.append_assoc ((processEntries p es).2)]
          exact List.Perm.append_left acc ((processEntries_perm p es).append_right _)
      · exfalso
        simp [stackErrFree, frameErrFree] at he

theorem treeLoop_error_of_codes (n : Nat) :
    ∀ (stack : List Frame) (acc : List String), stackMeasure stack ≤ n →
      stackErrCodes stack ≠ [] →
      ∃ c, c ∈ stackErrCodes stack ∧ treeLoop stack acc = Except.error (errorCodeToString c) := by
  induction n with
  | zero =>
    intro stack acc hm hc
    rcases stack with _ | ⟨⟨p, err, es⟩, rest⟩
    · exact absurd rfl hc
    · exfalso
      simp [stackMeasure] at hm
  | succ n ih =>
    intro stack acc hm hc
    rcases stack with _ | ⟨⟨p, err, es⟩, rest⟩
    · exact absurd rfl hc
    · rcases err with _ | c
      · have hperm1 : (stackErrCodes ((processEntries p es).1 ++ rest)).Perm
            (entriesErrCodes es ++ stackErrCodes rest) := by
          rw [stackErrCodes_append]
          exact (processEntries_codes_perm p es).append_right _
        have hm2 : stackMeasure ((processEntries p es).1 ++ rest) ≤ n := by
          have h1 := processEntries_measure p es
          rw [stackMeasure_append]
          simp [stackMeasure] at hm
          omega
        have hc2 : stackErrCodes ((processEntries p es).1 ++ rest) ≠ [] := by
          intro hnil
          apply hc
          have h0 : entriesErrCodes es ++ stackErrCodes rest = [] := by
            have h1 := hperm1.symm
            rw [hnil] at h1
            exact h1.eq_nil
          simpa [stackErrCodes] using h0
        obtain ⟨c, hmem, heq⟩ :=
          ih ((processEntries p es).1 ++ rest) (acc ++ (processEntries p es).2) hm2 hc2
        refine ⟨c, ?_, ?_⟩
        · have : c ∈ entriesErrCodes es ++ stackErrCodes rest := hperm1.mem_iff.mp hmem
          simpa [stackErrCodes, Option.toList] using this
        · have hstep : treeLoop ((p, none, es) :: rest) acc
              = treeLoop ((processEntries p es).1 ++ rest) (acc ++ (processEntries p es).2) := by
            simp only [treeLoop]
          rw [hstep]
          exact heq
      · refine ⟨c, ?_, ?_⟩
        · simp [stackErrCodes, Option.toList]
        · simp [treeLoop]

/-- Top-level form of the tree-scan success case: on an error-free tree the
scan resolves, with a result that is a permutation of the canonical one
entry-per-matching-file list. -/
theorem treeScan_ok (rootPath : String) (es : List FSEntry)
    (he : entriesErrFree es = true) :
    ∃ l, treeScan rootPath none es = Except.ok l ∧ l.Perm (listMatches rootPath es) := by
  obtain ⟨l, heq, hperm⟩ :=
    treeLoop_ok_of_errFree (stackMeasure [(rootPath, none, es)])
      [(rootPath, none, es)] [] (Nat.le_refl _)
      (by simp [stackErrFree, frameErrFree, he])
  exact ⟨l, heq, by simpa [stackMatches] using hperm⟩

/-- Top-level form of the tree-scan failure case: whenever some reachable
listing fails, the scan rejects with the translated code of one of the
failing listings. -/
theorem treeScan_error (rootPath : String) (rootErr : Option Nat) (es : List FSEntry)
    (hc : stackErrCodes [(rootPath, rootErr, es)] ≠ []) :
    ∃ c, c ∈ stackErrCodes [(rootPath, rootErr, es)] ∧
      treeScan rootPath rootErr es = Except.error (errorCodeToString c) :=
  treeLoop_error_of_codes (stackMeasure [(rootPath, rootErr, es)])
    [(rootPath, rootErr, es)] [] (Nat.le_refl _) hc

theorem cursorClassify_isSome (n : String) :
    (cursorClassify n).isSome = (endsWith n "titles.idx" || zimNameMatches n) := by
  cases h1 : endsWith n "titles.idx" <;> cases h2 : zimNameMatches n <;>
    simp [cursorClassify, h1, h2]

theorem treeClassify_isSome (p n : String) :
    (treeClassify p n).isSome = (endsWith n "titles.idx" || endsWith n ".zim") := by
  cases h1 : endsWith n "titles.idx" <;> cases h2 : endsWith n ".zim" <;>
    simp [treeClassify, h1, h2]

/-! ## Claim theorems -/

/-- C1, counterexample to the claim as stated: the claim requires one result
entry for every file matching `.zim`/`.zimaa` case-insensitively under BOTH
scan strategies, but `StoragePhoneGap.scanForArchives` tests only the
case-sensitive suffix `.zim`: a file `a.zimaa` matches the cursor strategy's
regex (and is emitted by it) yet the tree scan of a volume containing
exactly that file resolves with zero entries. -/
theorem C1_counterexample :
    zimNameMatches "a.zimaa" = true ∧
    cursorScan ["a.zimaa"] none = Except.ok ["a.zimaa"] ∧
    treeScan "" none [FSEntry.file "a.zimaa"] = Except.ok [] := by
  refine ⟨by decide, by decide, ?_⟩
  simp [treeScan, treeLoop, processEntries, treeClassify]
  decide

/-- C1, amended: for every volume whose traversal completes without error,
scan resolves with exactly one result entry per matching file and zero
entries for every other file, where the cursor strategy
(StorageFirefoxOS.scanForArchives) matches `titles.idx` suffixes (emitted as
the containing directory) and, case-insensitively, `.zim`/`.zimaa` suffixes
(emitted as the full file path), while the tree strategy
(StoragePhoneGap.scanForArchives) matches `titles.idx` suffixes and only the
case-sensitive suffix `.zim`; the tree-scan result is a permutation of the
canonical one-entry-per-matching-file list. -/
theorem C1_amended_scan_results
    (files : List String) (rootPath : String) (es : List FSEntry)
    (he : entriesErrFree es = true) :
    cursorScan files none = Except.ok (files.filterMap cursorClassify) ∧
    (∀ n, (cursorClassify n).isSome = (endsWith n "titles.idx" || zimNameMatches n)) ∧
    (∃ l, treeScan rootPath none es = Except.ok l ∧ l.Perm (listMatches rootPath es)) ∧
    (∀ p n, (treeClassify p n).isSome = (endsWith n "titles.idx" || endsWith n ".zim")) := by
  refine ⟨?_, cursorClassify_isSome, treeScan_ok rootPath es he, treeClassify_isSome⟩
  simpa [cursorScan] using cursorLoop_none files []

/-- Witness for C1_amended_scan_results at a concrete volume content. -/
theorem C1_amended_scan_results_witness :
    entriesErrFree [FSEntry.file "b.zim"] = true ∧
    (cursorScan ["sub/titles.idx", "A.ZIM"] none =
        Except.ok (["sub/titles.idx", "A.ZIM"].filterMap cursorClassify) ∧
      (∀ n, (cursorClassify n).isSome = (endsWith n "titles.idx" || zimNameMatches n)) ∧
      (∃ l, treeScan "/root" none [FSEntry.file "b.zim"] = Except.ok l ∧
        l.Perm (listMatches "/root" [FSEntry.file "b.zim"])) ∧
      (∀ p n, (treeClassify p n).isSome = (endsWith n "titles.idx" || endsWith n ".zim"))) :=
  ⟨by simp [entriesErrFree],
   C1_amended_scan_results ["sub/titles.idx", "A.ZIM"] "/root" [FSEntry.file "b.zim"]
     (by simp [entriesErrFree])⟩

/-- C2, counterexample to the claim as stated: classification is NOT
case-insensitive under StoragePhoneGap.scanForArchives — a file named
`ARCHIVE.ZIM` is ignored by the tree scan while `archive.zim` is emitted, so
the two are not classified identically under both strategies. -/
theorem C2_counterexample :
    cursorClassify "ARCHIVE.ZIM" = some "ARCHIVE.ZIM" ∧
    cursorClassify "archive.zim" = some "archive.zim" ∧
    treeClassify "d" "ARCHIVE.ZIM" = none ∧
    treeClassify "d" "archive.zim" = some "d/archive.zim" ∧
    treeScan "d" none [FSEntry.file "ARCHIVE.ZIM"] = Except.ok [] ∧
    treeScan "d" none [FSEntry.file "archive.zim"] = Except.ok ["d/archive.zim"] := by
  refine ⟨by decide, by decide, by decide, by decide, ?_, ?_⟩ <;>
    · simp [treeScan, treeLoop, processEntries, treeClassify]
      decide

/-- C2, amended: only the cursor strategy's archive classification is
case-insensitive and accepts both `.zim` and `.zimaa` (any two names with
the same lowercasing are classified identically, and `ARCHIVE.ZIM` is
accepted like `archive.zim`); the tree strategy accepts exactly the
case-sensitive suffix `.zim`, so it ignores `ARCHIVE.ZIM` and every
`.zimaa` name. -/
theorem C2_amended_classification (n m : String) (hlow : lowerStr n = lowerStr m) :
    zimNameMatches n = zimNameMatches m ∧
    zimNameMatches "ARCHIVE.ZIM" = true ∧
    zimNameMatches "x.zimaa" = true ∧
    (∀ p k, (treeClassify p k).isSome = (endsWith k "titles.idx" || endsWith k ".zim")) ∧
    endsWith "ARCHIVE.ZIM" ".zim" = false ∧
    endsWith "x.zimaa" ".zim" = false := by
  refine ⟨?_, by decide, by decide, treeClassify_isSome, by decide, by decide⟩
  unfold zimNameMatches
  rw [hlow]

/-- Witness for C2_amended_classification at the claim's own pair of
names. -/
theorem C2_amended_classification_witness :
    lowerStr "ARCHIVE.ZIM" = lowerStr "archive.zim" ∧
    (zimNameMatches "ARCHIVE.ZIM" = zimNameMatches "archive.zim" ∧
      zimNameMatches "ARCHIVE.ZIM" = true ∧
      zimNameMatches "x.zimaa" = true ∧
      (∀ p k, (treeClassify p k).isSome = (endsWith k "titles.idx" || endsWith k ".zim")) ∧
      endsWith "ARCHIVE.ZIM" ".zim" = false ∧
      endsWith "x.zimaa" ".zim" = false) :=
  ⟨by decide, C2_amended_classification "ARCHIVE.ZIM" "archive.zim" (by decide)⟩

theorem getD_map_ok (rs : List (List String)) (i : Nat) :
    (rs.map (Except.ok : List String → Except String (List String))).getD i (Except.ok []) =
      Except.ok (rs.getD i []) := by
  induction rs generalizing i with
  | nil => cases i <;> rfl
  | cons x xs ih =>
    cases i with
    | zero => rfl
    | succ j => exact ih j

theorem map_getD_range (rs : List (List String)) :
    (List.range rs.length).map (fun i => rs.getD i []) = rs := by
  induction rs with
  | nil => simp
  | cons x xs ih =>
    rw [List.length_cons, List.range_succ_eq_map, List.map_cons, List.map_map]
    have hcomp : ((fun i => (x :: xs).getD i []) ∘ Nat.succ) = (fun i => xs.getD i []) :=
      funext fun i => rfl
    rw [hcomp, ih]
    rfl

/-- C3: if any single volume's scan rejects, the aggregate multi-volume scan
takes the failure branch and the caller's callback receives null (modelled
as `none`) rather than any partial result list, whatever the promise
settlement order. -/
theorem C3_all_or_nothing (results : List (Except String (List String))) (arrival : List Nat)
    (h : ∃ r ∈ results, volumeScanOk r = false) :
    coordinatorCallbackArg results arrival = none := by
  unfold coordinatorCallbackArg
  obtain ⟨r, hr, hfalse⟩ := h
  have hall : results.all volumeScanOk = false := by
    rw [List.all_eq_false]
    exact ⟨r, hr, by simp [hfalse]⟩
  simp [hall]

/-- Witness for C3_all_or_nothing at the claim's own instance: volumes
[A, B] where A resolved with ["/a/"] and B rejected. -/
theorem C3_all_or_nothing_witness :
    (∃ r ∈ [Except.ok ["/a/"], (Except.error "NOT_FOUND_ERR" : Except String (List String))],
      volumeScanOk r = false) ∧
    coordinatorCallbackArg [Except.ok ["/a/"], Except.error "NOT_FOUND_ERR"] [0, 1] = none :=
  ⟨by decide, C3_all_or_nothing _ [0, 1] (by decide)⟩

/-- C4, counterexample to the claim as stated: the coordinator appends each
volume's contribution when that volume's scan promise settles
(jQuery.merge inside each per-volume then-handler), so with volumes
[A, B] both resolving but B's promise settling first, the delivered list is
["/b/", "/a/"]: the entry contributed by volume 0 appears after the entry
contributed by volume 1, violating volume-list ordering. -/
theorem C4_counterexample :
    coordinatorCallbackArg [Except.ok ["/a/"], Except.ok ["/b/"]] [1, 0] =
      some ["/b/", "/a/"] ∧
    ["/b/", "/a/"] ≠ ["/a/", "/b/"] := by
  refine ⟨by decide, by decide⟩

/-- C4, amended: each volume's own entries are kept in that volume's
traversal order, but the groups are concatenated in promise-settlement
order, which the code does not control; volume-list ordering is obtained
exactly when the settlements happen in volume-list order, in which case the
delivered list is the ordered flattening of the per-volume results. -/
theorem C4_amended_merge_order (rs : List (List String)) (arrival : List Nat) :
    mergedDirectories (rs.map Except.ok) arrival =
      (arrival.map (fun i => rs.getD i [])).flatten ∧
    coordinatorCallbackArg (rs.map Except.ok) (List.range rs.length) =
      some rs.flatten := by
  have hmerge : ∀ ar : List Nat, mergedDirectories (rs.map Except.ok) ar =
      (ar.map (fun i => rs.getD i [])).flatten := by
    intro ar
    unfold mergedDirectories
    congr 1
    refine List.map_congr_left (fun i _ => ?_)
    rw [getD_map_ok]
    rfl
  have hall : (rs.map Except.ok).all volumeScanOk = true := by
    rw [List.all_eq_true]
    intro r hr
    obtain ⟨x, hx, rfl⟩ := List.mem_map.mp hr
    rfl
  refine ⟨hmerge arrival, ?_⟩
  unfold coordinatorCallbackArg
  rw [hall, if_pos rfl, hmerge, map_getD_range]

/-- C5: within one volume the scan is all-or-nothing — whatever has been
accumulated, a cursor step reporting an error makes the cursor scan reject
with exactly that error, and a failing directory listing makes the tree
scan reject with the translated code of a failing listing, never
resolving. -/
theorem C5_error_discard (fs : List String) (e : String) (acc : List String)
    (stack : List Frame) (acc2 : List String)
    (hc : stackErrCodes stack ≠ []) :
    cursorLoop fs (some e) acc = Except.error e ∧
    ∃ c, c ∈ stackErrCodes stack ∧ treeLoop stack acc2 = Except.error (errorCodeToString c) :=
  ⟨cursorLoop_some fs e acc,
   treeLoop_error_of_codes (stackMeasure stack) stack acc2 (Nat.le_refl _) hc⟩

/-- Witness for C5_error_discard: two matches already accumulated when the
next directory listing call fails with NOT_FOUND_ERR (code 1). -/
theorem C5_error_discard_witness :
    stackErrCodes [("/sd", none, [FSEntry.file "a.zim", FSEntry.file "b.zim",
        FSEntry.dir "/sd/d" (some 1) []])] ≠ [] ∧
    (cursorLoop ["wiki/titles.idx", "a.zim"] (some "CursorError") ["partial/"] =
        Except.error "CursorError" ∧
      ∃ c, c ∈ stackErrCodes [("/sd", none, [FSEntry.file "a.zim", FSEntry.file "b.zim",
          FSEntry.dir "/sd/d" (some 1) []])] ∧
        treeLoop [("/sd", none, [FSEntry.file "a.zim", FSEntry.file "b.zim",
          FSEntry.dir "/sd/d" (some 1) []])] ["/sd/", "/sd/a.zim"] =
          Except.error (errorCodeToString c)) :=
  ⟨by simp [stackErrCodes, entriesErrCodes],
   C5_error_discard ["wiki/titles.idx", "a.zim"] "CursorError" ["partial/"] _ _
     (by simp [stackErrCodes, entriesErrCodes])⟩

/-- C6, counterexample to the claim as stated: StorageFirefoxOS performs no
error translation at all — its scan rejects with the raw cursor error
untouched, so a native error outside the taxonomy reaches the caller
verbatim instead of being reported as Unknown. -/
theorem C6_counterexample :
    cursorScan ["a.zim"] (some "NotReadableError") = Except.error "NotReadableError" ∧
    "NotReadableError" ∉ taxonomyStrings := by
  refine ⟨by decide, by decide⟩

/-- C6, amended: StoragePhoneGap translates every native FileError code
(used by both its get and its scan rejections) into the taxonomy, with
every unmapped code reported as "Unknown Error" rather than swallowed;
StorageFirefoxOS performs no translation — its scan rejects with the raw
cursor error and its get rejects with the native error name, both passed
through unchanged. -/
theorem C6_amended_error_translation (c : Nat) (hc : c ∉ ([1, 2, 7, 9, 10] : List Nat))
    (fs : List String) (e : String) (errName : String) :
    errorCodeToString c = "Unknown Error" ∧
    (∀ k : Nat, errorCodeToString k ∈ taxonomyStrings) ∧
    cursorScan fs (some e) = Except.error e ∧
    firefoxGetRejectValue errName = errName := by
  refine ⟨?_, ?_, by simpa [cursorScan] using cursorLoop_some fs e [], rfl⟩
  · have h10 : c ≠ 10 := fun h => hc (by simp [h])
    have h1 : c ≠ 1 := fun h => hc (by simp [h])
    have h2 : c ≠ 2 := fun h => hc (by simp [h])
    have h9 : c ≠ 9 := fun h => hc (by simp [h])
    have h7 : c ≠ 7 := fun h => hc (by simp [h])
    simp [errorCodeToString, h10, h1, h2, h9, h7]
  · intro k
    unfold errorCodeToString taxonomyStrings
    split_ifs <;> simp

/-- Witness for C6_amended_error_translation at the unmapped code 42 and a
concrete native error. -/
theorem C6_amended_error_translation_witness :
    (42 : Nat) ∉ ([1, 2, 7, 9, 10] : List Nat) ∧
    (errorCodeToString 42 = "Unknown Error" ∧
      (∀ k : Nat, errorCodeToString k ∈ taxonomyStrings) ∧
      cursorScan ["x.zim"] (some "SomeNativeError") = Except.error "SomeNativeError" ∧
      firefoxGetRejectValue "NotFoundError" = "NotFoundError") :=
  ⟨by decide, C6_amended_error_translation 42 (by decide) ["x.zim"] "SomeNativeError" "NotFoundError"⟩

theorem lastSlashIdx_spec (cs : List Char) (i : Nat) (h : lastSlashIdx cs = some i) :
    (cs.take (i + 1)).getLast? = some '/' := by
  induction cs generalizing i with
  | nil => simp [lastSlashIdx] at h
  | cons c cs ih =>
    cases h2 : lastSlashIdx cs with
    | some j =>
      have hi : i = j + 1 := by
        simp only [lastSlashIdx, h2] at h
        exact (Option.some_inj.mp h).symm
      subst hi
      rw [List.take_succ_cons]
      have htl := ih j h2
      rcases htake : cs.take (j + 1) with _ | ⟨x, xs⟩
      · rw [htake] at htl
        simp at htl
      · rw [htake] at htl
        rw [List.getLast?_cons_cons]
        exact htl
    | none =>
      simp only [lastSlashIdx, h2] at h
      by_cases hc : c = '/'
      · rw [if_pos hc] at h
        have hi : i = 0 := (Option.some_inj.mp h).symm
        subst hi
        simp [List.take_succ_cons, hc]
      · rw [if_neg hc] at h
        cases h

theorem markerDirectory_lastChar (name : String) :
    (markerDirectory name).data.getLast? = some '/' := by
  unfold markerDirectory
  cases h : lastSlashIdx name.data with
  | none =>
    show ("/" : String).data.getLast? = some '/'
    decide
  | some i => exact lastSlashIdx_spec name.data i h

theorem normalizeDirPath_lastChar (p : String) :
    (normalizeDirPath p).data.getLast? = some '/' := by
  unfold normalizeDirPath
  split_ifs with h
  · have hdata : (p ++ "/").data = p.data ++ ['/'] := rfl
    rw [hdata]
    simp
  · simp only [Bool.or_eq_true, decide_eq_true_eq, not_or, Decidable.not_not] at h
    exact h.2

theorem normalizeDirPath_of_slash (q : String) (hq : q.data.getLast? = some '/') :
    normalizeDirPath q = q := by
  have hne : q.data ≠ [] := by
    intro h0
    rw [h0] at hq
    cases hq
  have hlen : q.length ≠ 0 := by
    intro h0
    exact hne (List.length_eq_zero.mp h0)
  unfold normalizeDirPath
  rw [if_neg]
  simp [hq, hlen]

/-- C7: directory entries for a titles.idx marker always carry a trailing
separator — the cursor scan emits "/" for a bare `titles.idx` and
"subdir/" for `subdir/titles.idx`, and in general emits the containing
prefix up to and including the last slash; the tree scan emits the
containing directory's fullPath with '/' appended exactly when it does not
already end in one. -/
theorem C7_trailing_separator (n p : String) (hm : endsWith n "titles.idx" = true) :
    cursorClassify "titles.idx" = some "/" ∧
    cursorClassify "subdir/titles.idx" = some "subdir/" ∧
    cursorClassify n = some (markerDirectory n) ∧
    (markerDirectory n).data.getLast? = some '/' ∧
    treeClassify p n = some (normalizeDirPath p) ∧
    (normalizeDirPath p).data.getLast? = some '/' ∧
    (∀ q : String, q.data.getLast? = some '/' → normalizeDirPath q = q) :=
  ⟨by decide, by decide, by simp [cursorClassify, hm], markerDirectory_lastChar n,
   by simp [treeClassify, hm], normalizeDirPath_lastChar p, normalizeDirPath_of_slash⟩

/-- Witness for C7_trailing_separator at a marker file inside a
subdirectory and a fullPath without trailing slash. -/
theorem C7_trailing_separator_witness :
    endsWith "wiki/titles.idx" "titles.idx" = true ∧
    (cursorClassify "titles.idx" = some "/" ∧
      cursorClassify "subdir/titles.idx" = some "subdir/" ∧
      cursorClassify "wiki/titles.idx" = some (markerDirectory "wiki/titles.idx") ∧
      (markerDirectory "wiki/titles.idx").data.getLast? = some '/' ∧
      treeClassify "/sd/wiki" "wiki/titles.idx" = some (normalizeDirPath "/sd/wiki") ∧
      (normalizeDirPath "/sd/wiki").data.getLast? = some '/' ∧
      (∀ q : String, q.data.getLast? = some '/' → normalizeDirPath q = q)) :=
  ⟨by decide, C7_trailing_separator "wiki/titles.idx" "/sd/wiki" (by decide)⟩

/-- C8: the archive-source resolver is a pure suffix dispatch —
loadArchiveFromDeviceStorage constructs the self-contained ZIM archive
object exactly when the path ends in ".zim" and the split/legacy archive
object for every other path, and loadArchiveFromFiles always constructs the
split/legacy archive object from the given file collection. -/
theorem C8_suffix_dispatch (s p : String) (files : List String) :
    isSelfContainedZim (loadArchiveFromDeviceStorage s p) = endsWith p ".zim" ∧
    isSplitLegacy (loadArchiveFromDeviceStorage s p) = !endsWith p ".zim" ∧
    loadArchiveFromFiles files = ArchiveHandle.localFromFiles files ∧
    isSplitLegacy (loadArchiveFromFiles files) = true := by
  refine ⟨?_, ?_, rfl, rfl⟩ <;>
    · unfold loadArchiveFromDeviceStorage
      cases h : endsWith p ".zim" <;> simp [h, isSelfContainedZim, isSplitLegacy]

/-- C9: StorageFirefoxOS.enumerate ignores its path argument — for any two
paths the identical underlying request (a full-storage enumeration with no
path argument) is issued, so the result does not depend on the path. -/
theorem C9_enumerate_ignores_path (s : StorageFirefoxOS) (p1 p2 : String) :
    s.enumerate p1 = s.enumerate p2 ∧
    s.enumerate p1 = s._storage.enumerateWith none :=
  ⟨rfl, rfl⟩

/-- C10, counterexample to the claim as stated: prefix stripping is not
idempotent-invariant — for p = "file://x" (a path that itself starts with
the prefix), get("file://" + p) looks up "file://x" while get(p) looks up
"x", so the two lookups differ. -/
theorem C10_counterexample :
    getLookupPath ("file://" ++ "file://x") = "file://x" ∧
    getLookupPath "file://x" = "x" ∧
    getLookupPath ("file://" ++ "file://x") ≠ getLookupPath "file://x" := by
  refine ⟨by decide, by decide, by decide⟩

/-- C10, amended: for every path p that does not itself start with
"file://", get("file://" + p) performs the identical file lookup as get(p):
the single leading prefix is stripped and prefix-free paths pass through
unchanged. -/
theorem C10_amended_prefix_strip (p : String) (h : strTake p 7 ≠ "file://") :
    getLookupPath ("file://" ++ p) = p ∧ getLookupPath p = p := by
  have hlen : ("file://".data).length = 7 := by decide
  have hdata : ("file://" ++ p).data = "file://".data ++ p.data := rfl
  constructor
  · have ht : strTake ("file://" ++ p) 7 = "file://" := by
      show String.mk (("file://" ++ p).data.take 7) = "file://"
      rw [hdata, List.take_left' hlen]
    have hd : strDrop ("file://" ++ p) 7 = p := by
      show String.mk (("file://" ++ p).data.drop 7) = p
      rw [hdata, List.drop_left' hlen]
    unfold getLookupPath
    rw [if_pos ht]
    exact hd
  · unfold getLookupPath
    rw [if_neg h]

/-- Witness for C10_amended_prefix_strip at a concrete prefix-free path. -/
theorem C10_amended_prefix_strip_witness :
    strTake "sdcard/wikipedia.zim" 7 ≠ "file://" ∧
    (getLookupPath ("file://" ++ "sdcard/wikipedia.zim") = "sdcard/wikipedia.zim" ∧
      getLookupPath "sdcard/wikipedia.zim" = "sdcard/wikipedia.zim") :=
  ⟨by decide, C10_amended_prefix_strip "sdcard/wikipedia.zim" (by decide)⟩
